import Mathlib

/-!
Shallow embedding of the message-retention scheduler of `discord-irc`:
the `Purge` class (`src/lib/purge.js`) and the `Watcher` class.

Timestamps (JS `Date` values) are modelled as `Int` milliseconds; JS `Date`
comparison and subtraction coerce to this numeric value. The mutable fields of
a `Purge` instance (`messageQueue`, `sas`, `stats`, and the mutated
`config.purgeTimerInterval`) form the state type `PurgeState`; each JS method
becomes a pure function from state to state. `setTimeout`/`setInterval`
scheduling is I/O glue and is not part of the state; the timeout value a tick
passes to `continue` is returned alongside the new state.

JS `Array.prototype.sort` (stable since ES2019) with comparator
`(l, r) => l.dueDate - r.dueDate` is modelled as the stable
`List.insertionSort` by `dueDate`.
-/

/-- A tracked Discord message: an opaque id and its creation timestamp
(`message.createdAt`, in ms). Other fields (`content`, channel) play no role
in the scheduler's logic. -/
structure Message where
  id : Nat
  createdAt : Int
deriving DecidableEq, Repr

/-- An element of `messageQueue` / `sas`: the object literal
`{ dueDate: due, message }` pushed by `Purge.addMessage`. -/
structure QueueEntry where
  dueDate : Int
  message : Message
deriving DecidableEq, Repr

/-- The purge configuration fields the scheduler reads.
`purgeTimerInterval` is *mutated* by `purgeTimerWatch`, so it lives in
`PurgeState` instead. -/
structure PurgeConfig where
  purgeCountPerRound : Nat
deriving DecidableEq, Repr

/-- The mutable state of a `Purge` instance. -/
structure PurgeState where
  config : PurgeConfig
  /-- Field `this.config.purgeTimerInterval`: mutated in place by the backoff branch.
  JS numbers are modelled as `ℚ` (the code divides `sas.length` by
  `purgeCountPerRound`, a non-integer value). -/
  purgeTimerInterval : ℚ
  /-- Field `this.messageQueue`: the pending queue, in push order (except where
  `getOldestMessageInQueue` re-sorts it in place). -/
  messageQueue : List QueueEntry
  /-- Field `this.sas`: the in-flight set (entries whose `delete()` is outstanding). -/
  sas : List QueueEntry
  /-- Counter `this.stats.itemsDeleted`. -/
  itemsDeleted : Nat
  /-- Counter `this.stats.itemsDeletedCalled`. -/
  itemsDeletedCalled : Nat
  /-- Counter `this.stats.errors`. -/
  errors : Nat
deriving DecidableEq, Repr

/-- The `Purge` constructor: empty queues, zero stats. -/
def Purge.init (cfg : PurgeConfig) (interval : ℚ) : PurgeState :=
  { config := cfg
    purgeTimerInterval := interval
    messageQueue := []
    sas := []
    itemsDeleted := 0
    itemsDeletedCalled := 0
    errors := 0 }

/-- The list the selection loop indexes into:
`this.messageQueue.filter(t => this.sas.findIndex(s => s.message.id === t.message.id) === -1).filter(t => t.dueDate < now).sort((l, r) => l.dueDate - r.dueDate)`.
Note the filters copy the array, so `messageQueue` itself is not mutated. -/
def dueSorted (queue sas : List QueueEntry) (now : Int) : List QueueEntry :=
  ((queue.filter fun t => !(sas.any fun s => s.message.id == t.message.id)).filter
      fun t => t.dueDate < now).insertionSort
    fun l r => l.dueDate ≤ r.dueDate

/-- The `for (i = 0; i < purgeCountPerRound; i += 1)` loop body of
`purgeTimerWatch`: each iteration recomputes `dueSorted` against the *current*
`sas`, takes index `i` of it, and on a hit pushes the tuple onto `sas` (the
delete call itself is asynchronous and modelled as a separate
`onDeleteComplete` event). If index `i` misses, `sas` is unchanged, so every
later index misses too and the remaining iterations select nothing; the loop
is therefore cut off there. `fuel` is the number of iterations left,
`purgeCountPerRound - i`. -/
def selectLoop (queue : List QueueEntry) (now : Int) :
    List QueueEntry → Nat → Nat → List QueueEntry
  | _, _, 0 => []
  | sas, i, fuel + 1 =>
    match (dueSorted queue sas now).get? i with
    | none => []
    | some tuple => tuple :: selectLoop queue now (sas ++ [tuple]) (i + 1) fuel

/-- The batch of tuples a call to `purgeTimerWatch` issues deletes for:
empty when the backoff branch is taken (`sas.length > 0`), otherwise the
output of the selection loop. -/
def tickBatch (st : PurgeState) (now : Int) : List QueueEntry :=
  if st.sas.length > 0 then []
  else selectLoop st.messageQueue now st.sas 0 st.config.purgeCountPerRound

/-- Method `Purge.purgeTimerWatch`. Returns the new state together with the timeout
passed to `continue` (the default argument `this.config.purgeTimerInterval`
in the batch branch, `sas.length / purgeCountPerRound` in the backoff
branch). For each selected tuple the loop fires `tuple.message.delete()`
(asynchronous; see `onDeleteComplete`), increments
`stats.itemsDeletedCalled`, and pushes the tuple onto `sas`. -/
def purgeTimerWatch (st : PurgeState) (now : Int) : PurgeState × ℚ :=
  if st.sas.length > 0 then
    let newInterval := st.purgeTimerInterval +
      st.purgeTimerInterval * ((st.sas.length : ℚ) / (st.config.purgeCountPerRound : ℚ))
    ({ st with purgeTimerInterval := newInterval },
      (st.sas.length : ℚ) / (st.config.purgeCountPerRound : ℚ))
  else
    let selected := selectLoop st.messageQueue now st.sas 0 st.config.purgeCountPerRound
    ({ st with
        sas := st.sas ++ selected
        itemsDeletedCalled := st.itemsDeletedCalled + selected.length },
      st.purgeTimerInterval)

/-- The pattern `findIndex(t => t.message.id === tuple.message.id)` + `splice(index, 1)`:
remove the first entry with the given message id, if any. -/
def removeFirstById (id : Nat) : List QueueEntry → List QueueEntry
  | [] => []
  | x :: xs => if x.message.id == id then xs else x :: removeFirstById id xs

/-- Method `Purge.removeFromStores`: drop the tuple's message id from both
`messageQueue` and `sas` (first occurrence each). -/
def removeFromStores (st : PurgeState) (tuple : QueueEntry) : PurgeState :=
  { st with
      messageQueue := removeFirstById tuple.message.id st.messageQueue
      sas := removeFirstById tuple.message.id st.sas }

/-- The completion callback attached to `tuple.message.delete()` in
`purgeTimerWatch`: on success `stats.itemsDeleted += 1`, on failure
`stats.errors += 1`; in both cases `removeFromStores(tuple)`. -/
def onDeleteComplete (st : PurgeState) (tuple : QueueEntry) (success : Bool) : PurgeState :=
  if success then removeFromStores { st with itemsDeleted := st.itemsDeleted + 1 } tuple
  else removeFromStores { st with errors := st.errors + 1 } tuple

/-- Method `Purge.getOldestMessageInQueue`: sorts `this.messageQueue` *in place* by
`dueDate` and returns the first element's message, or `null` (here `none`)
when the queue is empty. The second component is the mutated state. -/
def getOldestMessageInQueue (st : PurgeState) : Option Message × PurgeState :=
  let sorted := st.messageQueue.insertionSort fun l r => l.dueDate ≤ r.dueDate
  ((sorted.get? 0).map (fun t => t.message), { st with messageQueue := sorted })

/-- Method `Purge.addMessage`: push `{ dueDate, message }` unless an entry with the
same message id is already queued. -/
def addMessage (st : PurgeState) (message : Message) (dueDate : Int) : PurgeState :=
  if st.messageQueue.any fun t => t.message.id == message.id then st
  else { st with messageQueue := st.messageQueue ++ [{ dueDate := dueDate, message := message }] }

/-!
### Watcher (`src` companion file, `watcher.js`)

Channel resolution in `Watcher.start` runs against the discord.js v11 client:

    Object.values(this.mappings)
      .map(m => (m.startsWith('#')
        ? this.discord.channels.filter(c => c.type === 'text').find('name', m.slice(1))
        : this.discord.channels.get(m)))
      .filter(c => c !== null)

discord.js v11 `Collection.find(prop, value)` returns `null` on a miss, while
`Collection` extends `Map`, whose `get` returns `undefined` on a miss. The two
distinct JS miss values are modelled explicitly by `ResolveResult`.
-/

/-- A Discord channel as far as `Watcher.start` inspects it: `id` and `name`
are the strings the lookups compare against, `type` is checked against
`'text'` on the name path. -/
structure Channel where
  id : String
  name : String
  type : String
deriving DecidableEq, Repr

/-- The JS value produced for one mapping entry: a channel, `null` (miss of
`Collection.find('name', …)`), or `undefined` (miss of `Map.get`). -/
inductive ResolveResult where
  | chan (c : Channel)
  | jsNull
  | jsUndefined
deriving DecidableEq, Repr

/-- JS `m.startsWith('#')`: the first character is `'#'`. (Stated on the
character list view of the string, which the kernel can evaluate.) -/
def startsWithHash (m : String) : Bool :=
  match m.data with
  | '#' :: _ => true
  | _ => false

/-- JS `m.slice(1)`: the string without its first character. -/
def sliceFrom1 (m : String) : String :=
  String.mk (m.data.drop 1)

/-- One arm of the `map` in `Watcher.start`: name lookup for mappings starting
with `'#'` (first text channel with that name, else `null`), id lookup
otherwise (`channels.get(m)`, else `undefined`). `channels` is the client's
collection in insertion order. -/
def resolveMapping (channels : List Channel) (m : String) : ResolveResult :=
  if startsWithHash m then
    match (channels.filter fun c => c.type == "text").find? (fun c => c.name == sliceFrom1 m) with
    | some c => .chan c
    | none => .jsNull
  else
    match channels.find? (fun c => c.id == m) with
    | some c => .chan c
    | none => .jsUndefined

/-- The list `this.chans` as computed by `Watcher.start`: every mapping resolved, then
`filter(c => c !== null)`. Each subsequent `watcherTicker` tick calls
`chan.fetchMessages(this.fetchParams())` for every element of this list. -/
def startChans (channels : List Channel) (mappings : List String) : List ResolveResult :=
  (mappings.map (resolveMapping channels)).filter fun r => !(r == ResolveResult.jsNull)

/-- The `messageLifeTime` configuration block; a field absent from the JSON is
`none`. Values are modelled as `Int` (JS numbers; the config doc uses small
naturals, nothing in the code constrains the sign). -/
structure MessageLifeTime where
  days : Option Int
  hours : Option Int
  minutes : Option Int
  seconds : Option Int
deriving DecidableEq, Repr

/-- Method `Watcher.getLifeTimeOffset`: `lt.days ? lt.days : 0` — for an integer JS
number `x ? x : 0` is the identity (`0` is falsy and maps to `0`), and an
absent field maps to `0`, i.e. `Option.getD 0`. The sum of seconds is
multiplied by 1000 into milliseconds. -/
def getLifeTimeOffset (lt : MessageLifeTime) : Int :=
  ((lt.days.getD 0) * 24 * 60 * 60
      + (lt.hours.getD 0) * 60 * 60
      + (lt.minutes.getD 0) * 60
      + lt.seconds.getD 0) * 1000

/-- The call `Watcher.getLifeTimeOffset(this.config.messageLifeTime)` with the default
parameter `lt = { }` when the config block is absent. -/
def lifeTimeOffsetOfConfig (cfg : Option MessageLifeTime) : Int :=
  getLifeTimeOffset (cfg.getD { days := none, hours := none, minutes := none, seconds := none })

/-- Method `Watcher.sendToPurge`:
`this.purge.addMessage(message, new Date(message.createdAt.getTime() + this.lifeTimeOffset))`. -/
def sendToPurge (lifeTimeOffset : Int) (message : Message) (st : PurgeState) : PurgeState :=
  addMessage st message (message.createdAt + lifeTimeOffset)

/-- The `{ before?, limit }` object `Watcher.fetchParams` passes to
`fetchMessages`. An absent `before` requests the most recent messages;
a present `before` is an exclusive upper bound. -/
structure FetchParams where
  before : Option Nat
  limit : Nat
deriving DecidableEq, Repr

/-- Method `Watcher.fetchParams`: consult `purge.getOldestMessageInQueue()` (which
re-sorts the queue in place — the mutated purge state is returned too);
`{ limit: 50 }` when it is `null`, `{ before: oldest.id, limit: 50 }`
otherwise. -/
def fetchParams (st : PurgeState) : FetchParams × PurgeState :=
  match getOldestMessageInQueue st with
  | (none, st') => ({ before := none, limit := 50 }, st')
  | (some m, st') => ({ before := some m.id, limit := 50 }, st')
instance : IsTotal QueueEntry fun l r => l.dueDate ≤ r.dueDate :=
  ⟨fun a b => le_total a.dueDate b.dueDate⟩

instance : IsTrans QueueEntry fun l r => l.dueDate ≤ r.dueDate :=
  ⟨fun _ _ _ h₁ h₂ => le_trans h₁ h₂⟩

theorem mem_dueSorted {queue sas : List QueueEntry} {now : Int} {t : QueueEntry}
    (h : t ∈ dueSorted queue sas now) :
    t ∈ queue ∧ (sas.any fun s => s.message.id == t.message.id) = false ∧ t.dueDate < now := by
  unfold dueSorted at h
  rw [List.mem_insertionSort] at h
  rcases List.mem_filter.1 h with ⟨h1, h2⟩
  rcases List.mem_filter.1 h1 with ⟨h3, h4⟩
  exact ⟨h3, by simpa using h4, by simpa using h2⟩

theorem selectLoop_subset (queue : List QueueEntry) (now : Int) :
    ∀ (fuel : Nat) (sas : List QueueEntry) (i : Nat) (t : QueueEntry),
      t ∈ selectLoop queue now sas i fuel → t ∈ queue := by
  intro fuel
  induction fuel with
  | zero => intro sas i t h; simp [selectLoop] at h
  | succ n ih =>
    intro sas i t h
    rw [selectLoop] at h
    cases hget : (dueSorted queue sas now).get? i with
    | none => rw [hget] at h; simp at h
    | some tuple =>
      rw [hget] at h
      rcases List.mem_cons.1 h with rfl | h'
      · exact (mem_dueSorted (List.get?_mem hget)).1
      · exact ih (sas ++ [tuple]) (i + 1) t h'

theorem selectLoop_not_mem (queue : List QueueEntry) (now : Int) (id : Nat) :
    ∀ (fuel : Nat) (sas : List QueueEntry) (i : Nat),
      id ∈ (sas.map fun t => t.message.id) →
      id ∉ ((selectLoop queue now sas i fuel).map fun t => t.message.id) := by
  intro fuel
  induction fuel with
  | zero => intro sas i h; simp [selectLoop]
  | succ n ih =>
    intro sas i hmem
    rw [selectLoop]
    cases hget : (dueSorted queue sas now).get? i with
    | none => simp
    | some tuple =>
      simp only [List.map_cons, List.mem_cons, not_or]
      refine ⟨?_, ?_⟩
      · intro hid
        have hfilter := (mem_dueSorted (List.get?_mem hget)).2.1
        rcases List.mem_map.1 hmem with ⟨s, hs, hsid⟩
        have hany : (sas.any fun s => s.message.id == tuple.message.id) = true :=
          List.any_eq_true.2 ⟨s, hs, by simp [hsid, hid]⟩
        simp [hany] at hfilter
      · have hmem' : id ∈ ((sas ++ [tuple]).map fun t => t.message.id) := by
          simp only [List.map_append, List.mem_append]
          exact Or.inl hmem
        exact ih (sas ++ [tuple]) (i + 1) hmem'
theorem removeFirstById_length {l : List QueueEntry} {id : Nat}
    (h : id ∈ (l.map fun t => t.message.id)) :
    (removeFirstById id l).length + 1 = l.length := by
  induction l with
  | nil => simp at h
  | cons x xs ih =>
    by_cases hx : x.message.id = id
    · simp [removeFirstById, hx]
    · rw [List.map_cons] at h
      rcases List.mem_cons.1 h with he | hm
      · exact absurd he.symm hx
      · have := ih hm
        simp only [removeFirstById, beq_iff_eq, if_neg hx, List.length_cons]
        omega

theorem not_mem_removeFirstById {l : List QueueEntry} {id : Nat}
    (h : ((l.map fun t => t.message.id).count id) ≤ 1) :
    id ∉ ((removeFirstById id l).map fun t => t.message.id) := by
  induction l with
  | nil => simp [removeFirstById]
  | cons x xs ih =>
    by_cases hx : x.message.id = id
    · simp only [removeFirstById, beq_iff_eq, if_pos hx]
      have hcount : ((xs.map fun t => t.message.id).count id) = 0 := by
        simp [List.count_cons, hx] at h
        omega
      exact (List.count_eq_zero).1 hcount
    · simp only [removeFirstById, beq_iff_eq, if_neg hx, List.map_cons, List.mem_cons, not_or]
      refine ⟨fun he => hx he.symm, ih ?_⟩
      simp only [List.map_cons, List.count_cons] at h
      omega

theorem not_mem_tickBatch {st : PurgeState} {id : Nat} {now : Int}
    (h : id ∉ (st.messageQueue.map fun t => t.message.id)) :
    id ∉ ((tickBatch st now).map fun t => t.message.id) := by
  intro hmem
  unfold tickBatch at hmem
  split at hmem
  · simp at hmem
  · rcases List.mem_map.1 hmem with ⟨t, ht, rfl⟩
    exact h (List.mem_map.2 ⟨t, selectLoop_subset _ _ _ _ _ _ ht, rfl⟩)
/-- The stats accounting equation: every delete call (`itemsDeletedCalled`)
has either resolved as a success (`itemsDeleted`), resolved as a failure
(`errors`), or is still outstanding (an entry of `sas`). -/
def statsInv (st : PurgeState) : Prop :=
  st.itemsDeletedCalled = st.itemsDeleted + st.errors + st.sas.length

/-- One externally triggered mutation of a `Purge` instance: a `Watcher`
submission, a timer tick, a `getOldestMessageInQueue` call (from
`Watcher.fetchParams`), or one delete-completion callback. A completion fires
only for a tuple whose delete is outstanding, i.e. whose id is in `sas`. -/
inductive PurgeStep : PurgeState → PurgeState → Prop where
  | add : ∀ (st : PurgeState) (m : Message) (d : Int), PurgeStep st (addMessage st m d)
  | tick : ∀ (st : PurgeState) (now : Int), PurgeStep st (purgeTimerWatch st now).1
  | oldest : ∀ (st : PurgeState), PurgeStep st (getOldestMessageInQueue st).2
  | complete : ∀ (st : PurgeState) (tuple : QueueEntry) (success : Bool),
      tuple.message.id ∈ (st.sas.map fun t => t.message.id) →
      PurgeStep st (onDeleteComplete st tuple success)

/-- States reachable from a freshly constructed `Purge` instance. -/
def PurgeReachable (cfg : PurgeConfig) (interval : ℚ) (st : PurgeState) : Prop :=
  Relation.ReflTransGen PurgeStep (Purge.init cfg interval) st

theorem statsInv_step {st st' : PurgeState} (h : statsInv st) (hs : PurgeStep st st') :
    statsInv st' := by
  cases hs with
  | add m d =>
    unfold statsInv addMessage at *
    split <;> simpa using h
  | tick now =>
    unfold statsInv purgeTimerWatch at *
    split
    · simpa using h
    · simp only [List.length_append]
      omega
  | oldest =>
    unfold statsInv getOldestMessageInQueue at *
    simpa using h
  | complete tuple success hmem =>
    have hlen := removeFirstById_length hmem
    unfold statsInv onDeleteComplete removeFromStores at *
    cases success <;> simp <;> omega

theorem counters_mono {st st' : PurgeState} (hs : PurgeStep st st') :
    st.itemsDeleted ≤ st'.itemsDeleted ∧ st.errors ≤ st'.errors ∧
      st.itemsDeletedCalled ≤ st'.itemsDeletedCalled := by
  cases hs with
  | add m d => unfold addMessage; split <;> simp
  | tick now => unfold purgeTimerWatch; split <;> simp
  | oldest => simp [getOldestMessageInQueue]
  | complete tuple success hmem =>
    cases success <;> simp [onDeleteComplete, removeFromStores]

theorem statsInv_reachable {cfg : PurgeConfig} {interval : ℚ} {st : PurgeState}
    (h : PurgeReachable cfg interval st) : statsInv st := by
  unfold PurgeReachable at h
  induction h with
  | refl => simp [statsInv, Purge.init]
  | tail hab hbc ih => exact statsInv_step ih hbc
/-- C1: refuted on the code. With `messageQueue` holding entries of dueDates
`10 < 20 < 30`, all past due at `now = 100`, empty `sas` and
`purgeCountPerRound = 2`, the tick's batch is the entries with dueDates
`{10, 30}` (ids `[1, 3]`) — not `{10, 20}`: each loop iteration re-filters
the queue against the grown `sas` and then indexes the shrunken list with the
loop counter `i`, so every second due entry is skipped. -/
theorem tickBatch_skips_second_earliest :
    (tickBatch
        { config := { purgeCountPerRound := 2 }
          purgeTimerInterval := 10000
          messageQueue :=
            [{ dueDate := 10, message := { id := 1, createdAt := 0 } },
              { dueDate := 20, message := { id := 2, createdAt := 0 } },
              { dueDate := 30, message := { id := 3, createdAt := 0 } }]
          sas := []
          itemsDeleted := 0
          itemsDeletedCalled := 0
          errors := 0 }
        100).map (fun t => t.message.id) = [1, 3] := by decide

/-- C2: refuted on the code. `Watcher.start` filters the resolved channel list
with `c !== null`, but an id-based lookup that misses yields `undefined`
(`Map.get`), not `null` (v11 `Collection.find`), so an unresolvable id-based
mapping stays in the monitored set (as `undefined`) while an unresolvable
name-based mapping is dropped; each `watcherTicker` tick then calls
`fetchMessages` on every element of that set. -/
theorem startChans_keeps_unresolved_id :
    startChans [] ["#general", "123"] = [ResolveResult.jsUndefined] := by decide

/-- C3: an id that is in `sas` (the in-flight set) when `purgeTimerWatch`
runs is never part of the tick's batch (with a non-empty `sas` the tick
selects nothing at all), and more generally the selection loop never selects
an id present in its current `sas` — so an in-flight id is excluded from
selection until a completion callback removes it. -/
theorem inFlight_never_selected (st : PurgeState) (now : Int) (id : Nat)
    (h : id ∈ (st.sas.map fun t => t.message.id)) :
    id ∉ ((tickBatch st now).map fun t => t.message.id)
    ∧ ∀ (sas' : List QueueEntry) (i fuel : Nat),
        id ∈ (sas'.map fun t => t.message.id) →
        id ∉ ((selectLoop st.messageQueue now sas' i fuel).map fun t => t.message.id) := by
  constructor
  · have hlen : st.sas.length > 0 := by
      rcases List.mem_map.1 h with ⟨t, ht, -⟩
      exact List.length_pos.2 (List.ne_nil_of_mem ht)
    simp [tickBatch, hlen]
  · intro sas' i fuel hmem
    exact selectLoop_not_mem st.messageQueue now id fuel sas' i hmem

theorem inFlight_never_selected_witness :
    (9 ∉ ((tickBatch
        { config := { purgeCountPerRound := 2 }
          purgeTimerInterval := 10000
          messageQueue := [{ dueDate := 5, message := { id := 9, createdAt := 0 } }]
          sas := [{ dueDate := 5, message := { id := 9, createdAt := 0 } }]
          itemsDeleted := 0
          itemsDeletedCalled := 1
          errors := 0 }
        100).map fun t => t.message.id)) := by
  have := inFlight_never_selected
    { config := { purgeCountPerRound := 2 }
      purgeTimerInterval := 10000
      messageQueue := [{ dueDate := 5, message := { id := 9, createdAt := 0 } }]
      sas := [{ dueDate := 5, message := { id := 9, createdAt := 0 } }]
      itemsDeleted := 0
      itemsDeletedCalled := 1
      errors := 0 }
    100 9 (by decide)
  exact this.1
/-- C4: `addMessage` is idempotent per message id. If the queue already holds
an entry with the message's id, a submission leaves the whole state unchanged;
and a first submission into a queue free of that id leaves exactly one entry
for it, carrying the dueDate passed then. -/
theorem addMessage_dedup (st : PurgeState) (m : Message) (d : Int)
    (h : ∃ t ∈ st.messageQueue, t.message.id = m.id) :
    addMessage st m d = st
    ∧ ∀ (st0 : PurgeState) (m0 : Message) (d0 : Int),
        (∀ t ∈ st0.messageQueue, t.message.id ≠ m0.id) →
        (addMessage st0 m0 d0).messageQueue.filter (fun t => t.message.id == m0.id)
          = [{ dueDate := d0, message := m0 }] := by
  constructor
  · rcases h with ⟨t, ht, hid⟩
    have hany : (st.messageQueue.any fun t => t.message.id == m.id) = true :=
      List.any_eq_true.2 ⟨t, ht, by simp [hid]⟩
    simp [addMessage, hany]
  · intro st0 m0 d0 hfresh
    have hany : (st0.messageQueue.any fun t => t.message.id == m0.id) = false := by
      simp only [List.any_eq_false, beq_iff_eq]
      exact hfresh
    have hbase : st0.messageQueue.filter (fun t => t.message.id == m0.id) = [] := by
      rw [List.filter_eq_nil_iff]
      intro t ht
      simp [hfresh t ht]
    simp [addMessage, hany, List.filter_append, hbase]

theorem addMessage_dedup_witness :
    (addMessage
        { config := { purgeCountPerRound := 2 }
          purgeTimerInterval := 10000
          messageQueue := [{ dueDate := 5, message := { id := 9, createdAt := 0 } }]
          sas := []
          itemsDeleted := 0
          itemsDeletedCalled := 0
          errors := 0 }
        { id := 9, createdAt := 3 } 77
      = { config := { purgeCountPerRound := 2 }
          purgeTimerInterval := 10000
          messageQueue := [{ dueDate := 5, message := { id := 9, createdAt := 0 } }]
          sas := []
          itemsDeleted := 0
          itemsDeletedCalled := 0
          errors := 0 }) := by
  have := addMessage_dedup
    { config := { purgeCountPerRound := 2 }
      purgeTimerInterval := 10000
      messageQueue := [{ dueDate := 5, message := { id := 9, createdAt := 0 } }]
      sas := []
      itemsDeleted := 0
      itemsDeletedCalled := 0
      errors := 0 }
    { id := 9, createdAt := 3 } 77
    ⟨{ dueDate := 5, message := { id := 9, createdAt := 0 } }, by decide, by decide⟩
  exact this.1
/-- C5: the backoff branch of `purgeTimerWatch`. When `sas` holds `k > 0`
entries, the new base interval is `old * (1 + k / purgeCountPerRound)`; that
expression is strictly increasing in `k` (for a positive old interval), and a
tick never decreases the base interval. -/
theorem backoff_interval (st : PurgeState) (now : Int)
    (hpos : 0 < st.purgeTimerInterval) (hb : 0 < st.config.purgeCountPerRound) :
    (0 < st.sas.length →
      ((purgeTimerWatch st now).1).purgeTimerInterval
        = st.purgeTimerInterval
          * (1 + (st.sas.length : ℚ) / (st.config.purgeCountPerRound : ℚ)))
    ∧ (∀ k1 k2 : ℕ, k1 < k2 →
        st.purgeTimerInterval * (1 + (k1 : ℚ) / (st.config.purgeCountPerRound : ℚ))
          < st.purgeTimerInterval * (1 + (k2 : ℚ) / (st.config.purgeCountPerRound : ℚ)))
    ∧ st.purgeTimerInterval ≤ ((purgeTimerWatch st now).1).purgeTimerInterval := by
  have hbq : (0 : ℚ) < (st.config.purgeCountPerRound : ℚ) := by exact_mod_cast hb
  refine ⟨?_, ?_, ?_⟩
  · intro hk
    simp only [purgeTimerWatch, if_pos hk]
    ring
  · intro k1 k2 hk
    have hk' : (k1 : ℚ) < (k2 : ℚ) := by exact_mod_cast hk
    gcongr
  · by_cases hk : st.sas.length > 0
    · simp only [purgeTimerWatch, if_pos hk]
      have h0 : (0 : ℚ) ≤ st.purgeTimerInterval
          * ((st.sas.length : ℚ) / (st.config.purgeCountPerRound : ℚ)) :=
        mul_nonneg hpos.le (div_nonneg (by positivity) (by positivity))
      linarith
    · simp [purgeTimerWatch, hk]

/-- A concrete backlogged state: one in-flight entry, base interval 10000,
batch size 2. -/
def backoffSt : PurgeState :=
  { config := { purgeCountPerRound := 2 }
    purgeTimerInterval := 10000
    messageQueue := []
    sas := [{ dueDate := 5, message := { id := 9, createdAt := 0 } }]
    itemsDeleted := 0
    itemsDeletedCalled := 1
    errors := 0 }

theorem backoff_interval_witness :
    ((purgeTimerWatch backoffSt 0).1).purgeTimerInterval
      = backoffSt.purgeTimerInterval
        * (1 + (backoffSt.sas.length : ℚ) / (backoffSt.config.purgeCountPerRound : ℚ))
    ∧ backoffSt.purgeTimerInterval
        * (1 + ((1 : ℕ) : ℚ) / (backoffSt.config.purgeCountPerRound : ℚ))
      < backoffSt.purgeTimerInterval
        * (1 + ((2 : ℕ) : ℚ) / (backoffSt.config.purgeCountPerRound : ℚ))
    ∧ backoffSt.purgeTimerInterval ≤ ((purgeTimerWatch backoffSt 0).1).purgeTimerInterval := by
  have h := backoff_interval backoffSt 0 (by norm_num [backoffSt]) (by norm_num [backoffSt])
  exact ⟨h.1 (by norm_num [backoffSt]), h.2.1 1 2 (by norm_num), h.2.2⟩
/-- C6: one completion handling of a delete. On failure, `errors` grows by
exactly 1 (the other counters are untouched) and the entry's id leaves both
`messageQueue` and `sas`, after which no tick can select it again (it is no
longer in the queue); on success the same removal happens with `itemsDeleted`
growing by exactly 1 instead. The count hypotheses say the id occurs at most
once in each store (which reachable states satisfy, `messageQueue` by the
`addMessage` dedup check and `sas` by the selection filter). -/
theorem deleteCompletion_spec (st : PurgeState) (tuple : QueueEntry)
    (hq : ((st.messageQueue.map fun t => t.message.id).count tuple.message.id) ≤ 1)
    (hs : ((st.sas.map fun t => t.message.id).count tuple.message.id) ≤ 1) :
    (onDeleteComplete st tuple false).errors = st.errors + 1
    ∧ (onDeleteComplete st tuple false).itemsDeleted = st.itemsDeleted
    ∧ (onDeleteComplete st tuple false).itemsDeletedCalled = st.itemsDeletedCalled
    ∧ tuple.message.id ∉ ((onDeleteComplete st tuple false).messageQueue.map
        fun t => t.message.id)
    ∧ tuple.message.id ∉ ((onDeleteComplete st tuple false).sas.map fun t => t.message.id)
    ∧ (∀ now : Int, tuple.message.id ∉ ((tickBatch (onDeleteComplete st tuple false) now).map
        fun t => t.message.id))
    ∧ (onDeleteComplete st tuple true).itemsDeleted = st.itemsDeleted + 1
    ∧ (onDeleteComplete st tuple true).errors = st.errors
    ∧ (onDeleteComplete st tuple true).itemsDeletedCalled = st.itemsDeletedCalled
    ∧ tuple.message.id ∉ ((onDeleteComplete st tuple true).messageQueue.map
        fun t => t.message.id)
    ∧ tuple.message.id ∉ ((onDeleteComplete st tuple true).sas.map fun t => t.message.id)
    ∧ (∀ now : Int, tuple.message.id ∉ ((tickBatch (onDeleteComplete st tuple true) now).map
        fun t => t.message.id)) := by
  refine ⟨by simp [onDeleteComplete, removeFromStores],
    by simp [onDeleteComplete, removeFromStores],
    by simp [onDeleteComplete, removeFromStores],
    ?_, ?_, ?_, by simp [onDeleteComplete, removeFromStores],
    by simp [onDeleteComplete, removeFromStores],
    by simp [onDeleteComplete, removeFromStores], ?_, ?_, ?_⟩
  · simpa [onDeleteComplete, removeFromStores] using not_mem_removeFirstById hq
  · simpa [onDeleteComplete, removeFromStores] using not_mem_removeFirstById hs
  · intro now
    exact not_mem_tickBatch
      (by simpa [onDeleteComplete, removeFromStores] using not_mem_removeFirstById hq)
  · simpa [onDeleteComplete, removeFromStores] using not_mem_removeFirstById hq
  · simpa [onDeleteComplete, removeFromStores] using not_mem_removeFirstById hs
  · intro now
    exact not_mem_tickBatch
      (by simpa [onDeleteComplete, removeFromStores] using not_mem_removeFirstById hq)

/-- The state right after the scenario tick: one entry, in both the queue and
the in-flight set, whose delete is outstanding. -/
def inFlightSt : PurgeState :=
  { config := { purgeCountPerRound := 2 }
    purgeTimerInterval := 10000
    messageQueue := [{ dueDate := 5, message := { id := 9, createdAt := 0 } }]
    sas := [{ dueDate := 5, message := { id := 9, createdAt := 0 } }]
    itemsDeleted := 0
    itemsDeletedCalled := 1
    errors := 0 }

theorem deleteCompletion_spec_witness :
    (onDeleteComplete inFlightSt { dueDate := 5, message := { id := 9, createdAt := 0 } }
        false).errors = inFlightSt.errors + 1
    ∧ (9 : Nat) ∉ ((onDeleteComplete inFlightSt
        { dueDate := 5, message := { id := 9, createdAt := 0 } } false).messageQueue.map
          fun t => t.message.id)
    ∧ (onDeleteComplete inFlightSt { dueDate := 5, message := { id := 9, createdAt := 0 } }
        true).itemsDeleted = inFlightSt.itemsDeleted + 1 := by
  have h := deleteCompletion_spec inFlightSt
    { dueDate := 5, message := { id := 9, createdAt := 0 } } (by decide) (by decide)
  exact ⟨h.1, h.2.2.2.1, h.2.2.2.2.2.2.1⟩
theorem getOldest_none_iff (st : PurgeState) :
    (getOldestMessageInQueue st).1 = none ↔ st.messageQueue = [] := by
  unfold getOldestMessageInQueue
  simp only
  constructor
  · intro h
    cases hsort : st.messageQueue.insertionSort (fun l r => l.dueDate ≤ r.dueDate) with
    | nil =>
      have hperm := List.perm_insertionSort (fun l r => l.dueDate ≤ r.dueDate) st.messageQueue
      rw [hsort] at hperm
      exact hperm.symm.eq_nil
    | cons t rest => rw [hsort] at h; simp at h
  · intro h; simp [h]

theorem getOldest_min (st : PurgeState) (m : Message)
    (h : (getOldestMessageInQueue st).1 = some m) :
    ∃ t ∈ st.messageQueue, t.message = m ∧ ∀ u ∈ st.messageQueue, t.dueDate ≤ u.dueDate := by
  unfold getOldestMessageInQueue at h
  simp only at h
  cases hsort : st.messageQueue.insertionSort (fun l r => l.dueDate ≤ r.dueDate) with
  | nil => rw [hsort] at h; simp at h
  | cons t rest =>
    rw [hsort] at h
    simp only [List.get?, Option.map_some] at h
    have hsorted := List.sorted_insertionSort (fun l r => l.dueDate ≤ r.dueDate) st.messageQueue
    rw [hsort] at hsorted
    have ht : t ∈ st.messageQueue := by
      have : t ∈ st.messageQueue.insertionSort (fun l r => l.dueDate ≤ r.dueDate) := by
        rw [hsort]; exact List.mem_cons_self t rest
      exact (List.mem_insertionSort _).1 this
    refine ⟨t, ht, by injection h, ?_⟩
    intro u hu
    have : u ∈ st.messageQueue.insertionSort (fun l r => l.dueDate ≤ r.dueDate) :=
      (List.mem_insertionSort _).2 hu
    rw [hsort] at this
    rcases List.mem_cons.1 this with rfl | hrest
    · exact le_refl _
    · exact List.rel_of_sorted_cons hsorted u hrest
/-- C7: every `fetchMessages` request built by `Watcher.fetchParams` carries
`limit = 50`; with an empty `PendingQueue` there is no `before` cursor, and
otherwise `before` is the message id of a queue entry of minimal dueDate. -/
theorem fetchParams_spec (st : PurgeState) :
    (fetchParams st).1.limit = 50
    ∧ (st.messageQueue = [] → (fetchParams st).1.before = none)
    ∧ (st.messageQueue ≠ [] →
        ∃ t ∈ st.messageQueue, (fetchParams st).1.before = some t.message.id
          ∧ ∀ u ∈ st.messageQueue, t.dueDate ≤ u.dueDate) := by
  rcases hgo : getOldestMessageInQueue st with ⟨o, st2⟩
  have ho1 : (getOldestMessageInQueue st).1 = o := by rw [hgo]
  refine ⟨?_, ?_, ?_⟩
  · cases o <;> simp [fetchParams, hgo]
  · intro hnil
    have : (getOldestMessageInQueue st).1 = none := (getOldest_none_iff st).2 hnil
    rw [ho1] at this
    subst this
    simp [fetchParams, hgo]
  · intro hne
    cases o with
    | none =>
      exact absurd ((getOldest_none_iff st).1 ho1) hne
    | some m =>
      rcases getOldest_min st m ho1 with ⟨t, ht, hm, hmin⟩
      exact ⟨t, ht, by simp [fetchParams, hgo, hm], hmin⟩

/-- A state with one pending entry (and nothing in flight). -/
def queuedSt : PurgeState :=
  { config := { purgeCountPerRound := 2 }
    purgeTimerInterval := 10000
    messageQueue := [{ dueDate := 5, message := { id := 9, createdAt := 0 } }]
    sas := []
    itemsDeleted := 0
    itemsDeletedCalled := 0
    errors := 0 }

theorem fetchParams_spec_witness :
    (fetchParams (Purge.init { purgeCountPerRound := 2 } 10000)).1.limit = 50
    ∧ (fetchParams (Purge.init { purgeCountPerRound := 2 } 10000)).1.before = none
    ∧ ∃ t ∈ queuedSt.messageQueue,
        (fetchParams queuedSt).1.before = some t.message.id
          ∧ ∀ u ∈ queuedSt.messageQueue, t.dueDate ≤ u.dueDate := by
  refine ⟨(fetchParams_spec (Purge.init { purgeCountPerRound := 2 } 10000)).1,
    (fetchParams_spec (Purge.init { purgeCountPerRound := 2 } 10000)).2.1 rfl,
    (fetchParams_spec queuedSt).2.2 (by decide)⟩
/-- C8: the lifetime offset is computed from configuration as
`days*86400 + hours*3600 + minutes*60 + seconds` seconds, converted to
milliseconds, with each unset field contributing 0; and a message submitted
through `Watcher.sendToPurge` into a queue not yet holding its id is queued
with `dueDate = message.createdAt + lifetimeOffset`. -/
theorem lifeTimeOffset_dueDate (lt : MessageLifeTime) (m : Message) (st : PurgeState)
    (hfresh : ∀ t ∈ st.messageQueue, t.message.id ≠ m.id) :
    getLifeTimeOffset lt
      = ((lt.days.getD 0) * 86400 + (lt.hours.getD 0) * 3600
          + (lt.minutes.getD 0) * 60 + lt.seconds.getD 0) * 1000
    ∧ ∃ t ∈ (sendToPurge (getLifeTimeOffset lt) m st).messageQueue,
        t.message = m ∧ t.dueDate = m.createdAt + getLifeTimeOffset lt := by
  constructor
  · unfold getLifeTimeOffset
    ring
  · have hany : (st.messageQueue.any fun t => t.message.id == m.id) = false := by
      simp only [List.any_eq_false, beq_iff_eq]
      exact hfresh
    refine ⟨{ dueDate := m.createdAt + getLifeTimeOffset lt, message := m }, ?_, rfl, rfl⟩
    simp [sendToPurge, addMessage, hany]

theorem lifeTimeOffset_dueDate_witness :
    getLifeTimeOffset
        { days := some 2, hours := some 3, minutes := none, seconds := some 1 }
      = (((some (2 : Int)).getD 0) * 86400 + ((some (3 : Int)).getD 0) * 3600
          + ((none : Option Int).getD 0) * 60 + (some (1 : Int)).getD 0) * 1000
    ∧ ∃ t ∈ (sendToPurge
          (getLifeTimeOffset
            { days := some 2, hours := some 3, minutes := none, seconds := some 1 })
          { id := 9, createdAt := 1000 }
          (Purge.init { purgeCountPerRound := 2 } 10000)).messageQueue,
        t.message = { id := 9, createdAt := 1000 }
          ∧ t.dueDate = (1000 : Int) + getLifeTimeOffset
              { days := some 2, hours := some 3, minutes := none, seconds := some 1 } :=
  lifeTimeOffset_dueDate
    { days := some 2, hours := some 3, minutes := none, seconds := some 1 }
    { id := 9, createdAt := 1000 }
    (Purge.init { purgeCountPerRound := 2 } 10000)
    (by simp [Purge.init])
/-- C9: from any reachable `Purge` state, after any further step — a tick, a
submission, an oldest-query, or one delete-completion callback — the stats
satisfy `itemsDeletedCalled = itemsDeleted + errors + |sas|` (every attempted
delete is in flight or counted exactly once as success or failure), and no
step ever decreases any of the three counters. -/
theorem purge_stats_accounting (cfg : PurgeConfig) (interval : ℚ) (st st' : PurgeState)
    (hr : PurgeReachable cfg interval st) (hstep : PurgeStep st st') :
    statsInv st'
    ∧ st.itemsDeleted ≤ st'.itemsDeleted
    ∧ st.errors ≤ st'.errors
    ∧ st.itemsDeletedCalled ≤ st'.itemsDeletedCalled :=
  ⟨statsInv_step (statsInv_reachable hr) hstep, counters_mono hstep⟩

theorem purge_stats_accounting_witness :
    statsInv (addMessage (Purge.init { purgeCountPerRound := 15 } 10000)
        { id := 7, createdAt := 0 } 5)
    ∧ (Purge.init { purgeCountPerRound := 15 } 10000).itemsDeleted
        ≤ (addMessage (Purge.init { purgeCountPerRound := 15 } 10000)
            { id := 7, createdAt := 0 } 5).itemsDeleted
    ∧ (Purge.init { purgeCountPerRound := 15 } 10000).errors
        ≤ (addMessage (Purge.init { purgeCountPerRound := 15 } 10000)
            { id := 7, createdAt := 0 } 5).errors
    ∧ (Purge.init { purgeCountPerRound := 15 } 10000).itemsDeletedCalled
        ≤ (addMessage (Purge.init { purgeCountPerRound := 15 } 10000)
            { id := 7, createdAt := 0 } 5).itemsDeletedCalled :=
  purge_stats_accounting { purgeCountPerRound := 15 } 10000
    (Purge.init { purgeCountPerRound := 15 } 10000)
    (addMessage (Purge.init { purgeCountPerRound := 15 } 10000) { id := 7, createdAt := 0 } 5)
    Relation.ReflTransGen.refl
    (PurgeStep.add (Purge.init { purgeCountPerRound := 15 } 10000) { id := 7, createdAt := 0 } 5)
/-- C10: `getOldestMessageInQueue` returns `none` exactly when the queue is
empty, otherwise the message of an entry of minimal dueDate; it adds and
removes nothing (the mutated queue is a permutation of the old one) but
leaves the queue sorted ascending by dueDate as a side effect, and touches no
other field of the state. -/
theorem getOldest_frame (st : PurgeState) :
    ((getOldestMessageInQueue st).1 = none ↔ st.messageQueue = [])
    ∧ (∀ m : Message, (getOldestMessageInQueue st).1 = some m →
        ∃ t ∈ st.messageQueue, t.message = m ∧ ∀ u ∈ st.messageQueue, t.dueDate ≤ u.dueDate)
    ∧ (getOldestMessageInQueue st).2.messageQueue.Perm st.messageQueue
    ∧ (getOldestMessageInQueue st).2.messageQueue.Sorted (fun l r => l.dueDate ≤ r.dueDate)
    ∧ (getOldestMessageInQueue st).2.sas = st.sas
    ∧ (getOldestMessageInQueue st).2.config = st.config
    ∧ (getOldestMessageInQueue st).2.purgeTimerInterval = st.purgeTimerInterval
    ∧ (getOldestMessageInQueue st).2.itemsDeleted = st.itemsDeleted
    ∧ (getOldestMessageInQueue st).2.itemsDeletedCalled = st.itemsDeletedCalled
    ∧ (getOldestMessageInQueue st).2.errors = st.errors := by
  refine ⟨getOldest_none_iff st, getOldest_min st, ?_, ?_, rfl, rfl, rfl, rfl, rfl, rfl⟩
  · show (st.messageQueue.insertionSort fun l r => l.dueDate ≤ r.dueDate).Perm st.messageQueue
    exact List.perm_insertionSort _ _
  · show List.Sorted _ (st.messageQueue.insertionSort fun l r => l.dueDate ≤ r.dueDate)
    exact List.sorted_insertionSort _ _

theorem getOldest_frame_witness :
    ((getOldestMessageInQueue queuedSt).1 = none ↔ queuedSt.messageQueue = [])
    ∧ (∃ t ∈ queuedSt.messageQueue,
        t.message = { id := 9, createdAt := 0 }
          ∧ ∀ u ∈ queuedSt.messageQueue, t.dueDate ≤ u.dueDate)
    ∧ (getOldestMessageInQueue queuedSt).2.sas = queuedSt.sas := by
  have h := getOldest_frame queuedSt
  exact ⟨h.1, h.2.1 { id := 9, createdAt := 0 } (by decide), h.2.2.2.2.1⟩
